import Mathlib

/-!
Shallow embedding of `src/server.js` (Employee Tracker / attendance forwarder).

The JavaScript program keeps an in-memory object `jobs` mapping job ids to
job records.  A JS object with string (non-numeric) keys enumerates its
entries in insertion order, so the store is embedded as an association list
ordered by insertion.  JSON values that flow through the system (webhook
response bodies) are embedded by a small inductive `JsonV`; objects are flat
string maps, which covers every object literal the program itself builds.

Nondeterministic inputs of the program (uuidv4 results, clock readings, the
outcome of the outbound `fetch`, the `Date` parser used by the cleanup
sweep) are passed to the embedded functions as explicit arguments.
-/

namespace Emilio

/-- JSON values as stored in job records and response bodies.  Objects are
flat string-valued maps, which is the shape of every object the program
constructs itself. -/
inductive JsonV where
  | null
  | bool (b : Bool)
  | num (n : Int)
  | str (s : String)
  | obj (fields : List (String × String))
deriving DecidableEq, Repr

/-- JavaScript truthiness of an embedded JSON value:
`null`, `false`, `0` and `""` are falsy, everything else truthy. -/
def jsTruthy : JsonV → Bool
  | .null => false
  | .bool b => b
  | .num n => n != 0
  | .str s => !s.isEmpty
  | .obj _ => true

/-- Job status enumeration, `"processing" | "success" | "failed"`. -/
inductive Status where
  | processing
  | success
  | failed
deriving DecidableEq, Repr

/-- A job record as created in `jobs[jobId] = { status: "processing", ... }`
(server.js lines 43-48) and mutated by the forwarder (lines 80-93).
`error = none` / `n8nResponse = none` model the corresponding object key
being absent. -/
structure Job where
  status : Status
  action : String
  name : String
  timestamp : String
  error : Option String := none
  n8nResponse : Option JsonV := none
deriving DecidableEq, Repr

/-- The in-memory `jobs` object: an association list in insertion order. -/
abbrev Store := List (String × Job)

/-- Reading `jobs[jobId]` — first (and, with unique keys, only) binding of the id. -/
def storeGet : Store → String → Option Job
  | [], _ => none
  | p :: rest, id => if p.1 = id then some p.2 else storeGet rest id

/-- Writing `jobs[jobId] = record` — replace the binding if the key exists,
otherwise append a new binding (JS insertion order). -/
def storeSet : Store → String → Job → Store
  | [], id, j => [(id, j)]
  | p :: rest, id, j => if p.1 = id then (id, j) :: rest else p :: storeSet rest id j

/-- The keys of the store, in insertion order. -/
def storeKeys (st : Store) : List String := st.map Prod.fst

theorem storeGet_eq_none_iff (st : Store) (id : String) :
    storeGet st id = none ↔ ∀ j, (id, j) ∉ st := by
  induction st with
  | nil => simp [storeGet]
  | cons p rest ih =>
    by_cases h : p.1 = id
    · subst h
      simp only [storeGet, if_pos rfl]
      constructor
      · intro h
        exact absurd h (by simp)
      · intro h
        exact absurd (h p.2 (by simp)) (by simp)
    · simp only [storeGet, if_neg h]
      rw [ih]
      constructor
      · intro hall j hmem
        rcases List.mem_cons.mp hmem with heq | hmem
        · exact h (congrArg Prod.fst heq.symm)
        · exact hall j hmem
      · intro hall j hmem
        exact hall j (List.mem_cons_of_mem _ hmem)

theorem storeGet_mem {st : Store} {id : String} {j : Job}
    (h : storeGet st id = some j) : (id, j) ∈ st := by
  induction st with
  | nil => simp [storeGet] at h
  | cons p rest ih =>
    obtain ⟨a, b⟩ := p
    by_cases ha : a = id
    · simp only [storeGet, if_pos ha] at h
      cases h
      subst ha
      exact List.mem_cons_self _ _
    · simp only [storeGet, if_neg ha] at h
      exact List.mem_cons_of_mem _ (ih h)

theorem storeGet_of_mem {st : Store} {id : String} {j : Job}
    (hnd : (storeKeys st).Nodup) (hmem : (id, j) ∈ st) :
    storeGet st id = some j := by
  induction st with
  | nil => simp at hmem
  | cons p rest ih =>
    simp only [storeKeys, List.map_cons, List.nodup_cons] at hnd
    rcases List.mem_cons.mp hmem with heq | hmem
    · subst heq
      simp [storeGet]
    · have hne : p.1 ≠ id := by
        intro hcontra
        exact hnd.1 (hcontra ▸ (List.mem_map.mpr ⟨(id, j), hmem, rfl⟩))
      simp only [storeGet, if_neg hne]
      exact ih hnd.2 hmem

theorem storeGet_storeSet_self (st : Store) (id : String) (j : Job) :
    storeGet (storeSet st id j) id = some j := by
  induction st with
  | nil => simp [storeSet, storeGet]
  | cons p rest ih =>
    by_cases hp : p.1 = id
    · simp [storeSet, if_pos hp, storeGet]
    · simp [storeSet, if_neg hp, storeGet, if_neg hp, ih]

theorem storeGet_storeSet_ne (st : Store) (id id2 : String) (j : Job)
    (h : id ≠ id2) : storeGet (storeSet st id j) id2 = storeGet st id2 := by
  induction st with
  | nil => simp [storeSet, storeGet, h]
  | cons p rest ih =>
    by_cases hp : p.1 = id
    · simp [storeSet, if_pos hp, storeGet, if_neg h, if_neg (hp ▸ h : p.1 ≠ id2), hp]
    · simp only [storeSet, if_neg hp]
      by_cases hp2 : p.1 = id2
      · simp [storeGet, if_pos hp2]
      · simp [storeGet, if_neg hp2, ih]

theorem storeKeys_storeSet_of_present (st : Store) (id : String) (j : Job)
    (h : storeGet st id ≠ none) :
    storeKeys (storeSet st id j) = storeKeys st := by
  induction st with
  | nil => simp [storeGet] at h
  | cons p rest ih =>
    by_cases hp : p.1 = id
    · simp [storeSet, if_pos hp, storeKeys, hp]
    · simp only [storeGet, if_neg hp] at h
      have h2 : List.map Prod.fst (storeSet rest id j) = List.map Prod.fst rest := by
        simpa [storeKeys] using ih h
      simp [storeSet, if_neg hp, storeKeys, h2]

theorem storeSet_of_absent (st : Store) (id : String) (j : Job)
    (h : storeGet st id = none) :
    storeSet st id j = st ++ [(id, j)] := by
  induction st with
  | nil => simp [storeSet]
  | cons p rest ih =>
    by_cases hp : p.1 = id
    · simp [storeGet, if_pos hp] at h
    · simp only [storeGet, if_neg hp] at h
      simp [storeSet, if_neg hp, ih h]

/-! ### POST /attendance (server.js lines 25-111) -/

/-- The request body fields destructured by the handler
(`const { name, department, date, time, action } = req.body`).
`none` models an absent key. -/
structure AttendanceBody where
  name : Option String
  department : Option String
  date : Option String
  time : Option String
  action : Option String
deriving DecidableEq, Repr

/-- JS truthiness of a possibly-absent string field: absent (`undefined`)
and the empty string are falsy. -/
def truthyStr : Option String → Bool
  | none => false
  | some s => !s.isEmpty

/-- The guard `!name || !department || !date || !time || !action` negated:
all five fields truthy. -/
def allFieldsTruthy (b : AttendanceBody) : Bool :=
  truthyStr b.name && truthyStr b.department && truthyStr b.date &&
    truthyStr b.time && truthyStr b.action

/-- The guard checking the action is one of login and logout. -/
def actionAllowed (b : AttendanceBody) : Bool :=
  b.action == some "login" || b.action == some "logout"

def missingFieldsMsg : String :=
  "Missing required fields: name, department, date, time, action"

def badActionMsg : String :=
  "Action must be either \x27login\x27 or \x27logout\x27"

/-- Capitalization `action.charAt(0).toUpperCase() + action.slice(1)`. -/
def capFirst (s : String) : String :=
  match s.data with
  | [] => ""
  | c :: cs => String.mk (c.toUpper :: cs)

/-- Synchronous result of the POST /attendance handler. -/
inductive AttResult where
  | badRequest (error : String)
  | accepted (jobId : String) (message : String) (action : String)
deriving DecidableEq, Repr

/-- The synchronous part of the POST /attendance handler.  `jobId` is the
`uuidv4()` result and `ts` the `new Date().toISOString()` clock reading,
both passed in explicitly.  Returns the HTTP result, the updated store, and
`some jobId` when a background forwarder task was spawned for that job. -/
def attendance (b : AttendanceBody) (jobId ts : String) (st : Store) :
    AttResult × Store × Option String :=
  if !allFieldsTruthy b then
    (.badRequest missingFieldsMsg, st, none)
  else if !actionAllowed b then
    (.badRequest badActionMsg, st, none)
  else
    let a := b.action.getD ""
    let job : Job :=
      { status := .processing
        action := a
        name := b.name.getD ""
        timestamp := ts }
    (.accepted jobId (capFirst a ++ " request submitted successfully") a,
      storeSet st jobId job, some jobId)

/-! ### The forwarder task (server.js lines 53-94) -/

/-- The outbound payload `webhookData` (lines 55-63): the trimmed name, the
other fields as submitted, the job id, and a second clock reading `ts2`
taken inside the forwarder task. -/
structure WebhookData where
  name : String
  department : String
  date : String
  time : String
  action : String
  jobId : String
  timestamp : String
deriving DecidableEq, Repr

def buildWebhookData (name department date time action jobId ts2 : String) :
    WebhookData :=
  { name := name.trim
    department := department
    date := date
    time := time
    action := action
    jobId := jobId
    timestamp := ts2 }

/-- The options object passed to `fetch` (lines 70-78), as the literal list
of its keys and values.  `body` is the serialized `webhookData`. -/
def forwarderFetchInit (body : String) : List (String × JsonV) :=
  [("method", .str "POST"),
   ("headers", .obj [("Content-Type", "application/json"),
                     ("User-Agent", "Employee-Tracker/1.0")]),
   ("body", .str body),
   ("timeout", .num 30000)]

/-- Outcome of the awaited `fetch`: either a response (with `ok`, the
status code, and `some` parsed JSON body, or `none` when `response.json()`
rejects), or a rejected promise (network error). -/
inductive FetchOutcome where
  | response (ok : Bool) (statusCode : Nat) (body : Option JsonV)
  | networkError (msg : String)
deriving DecidableEq, Repr

/-- The fallback used when `response.json()` rejects:
`.catch(() => ({ status: "success" }))`. -/
def defaultSuccessBody : JsonV := .obj [("status", "success")]

/-- Message of `new Error(...)` thrown for a non-ok response (line 86). -/
def webhookStatusError (code : Nat) : String :=
  "N8N webhook responded with status: " ++ toString code

/-- The record mutations applied by the forwarder to an existing record:
on an ok response, `status = "success"` and `n8nResponse` = parsed body or
the default (lines 80-84); on a non-ok response the thrown error is caught
and `status = "failed"`, `error` = the thrown message (lines 86, 89-93);
on a rejected fetch, `status = "failed"`, `error` = the rejection message. -/
def forwarderResult (j : Job) : FetchOutcome → Job
  | .response true _ body =>
      { j with status := .success, n8nResponse := some (body.getD defaultSuccessBody) }
  | .response false code _ =>
      { j with status := .failed, error := some (webhookStatusError code) }
  | .networkError msg =>
      { j with status := .failed, error := some msg }

/-- The store-writing tail of the forwarder task (lines 80-93), after the
`fetch` has settled with `outcome`.  Returns the new store and a flag that
is `true` exactly when an exception escaped the detached async IIFE: when
the job record has been deleted, both `jobs[jobId].status = "success"` and
the catch block recovery `jobs[jobId].status = "failed"` throw a TypeError
on `undefined`, and the second throw is uncaught (the store is left
unchanged in that case). -/
def forwarderWrite (st : Store) (jobId : String) (outcome : FetchOutcome) :
    Store × Bool :=
  match storeGet st jobId with
  | none => (st, true)
  | some j => (storeSet st jobId (forwarderResult j outcome), false)

/-! ### GET /status/:jobId (server.js lines 126-142) -/

/-- Rendering `job.error || null`: the or coerces a falsy (absent or empty) error
string to JSON `null`. -/
def jsOrNullStr : Option String → JsonV
  | none => .null
  | some s => if s.isEmpty then .null else .str s

/-- Rendering `job.n8nResponse || null`. -/
def jsOrNullJson : Option JsonV → JsonV
  | none => .null
  | some v => if jsTruthy v then v else .null

def statusToString : Status → String
  | .processing => "processing"
  | .success => "success"
  | .failed => "failed"

/-- The JSON body returned for a found job: always the same six keys, with
absent record fields rendered as `null`. -/
def statusBody (job : Job) : List (String × JsonV) :=
  [("status", .str (statusToString job.status)),
   ("action", .str job.action),
   ("name", .str job.name),
   ("timestamp", .str job.timestamp),
   ("error", jsOrNullStr job.error),
   ("n8nResponse", jsOrNullJson job.n8nResponse)]

inductive StatusResp where
  | notFound
  | ok (body : List (String × JsonV))
deriving DecidableEq, Repr

def statusHandler (st : Store) (jobId : String) : StatusResp :=
  match storeGet st jobId with
  | none => .notFound
  | some job => .ok (statusBody job)

/-! ### GET /recent-activities (server.js lines 145-158) -/

structure Activity where
  jobId : String
  name : String
  action : String
  timestamp : String
deriving DecidableEq, Repr

/-- Slicing `.slice(-10)`: the last ten elements (all of them when fewer). -/
def sliceLastTen {α : Type} (l : List α) : List α :=
  l.drop (l.length - 10)

def activityOf (p : String × Job) : Activity :=
  { jobId := p.1
    name := p.2.name
    action := p.2.action
    timestamp := p.2.timestamp }

/-- Pipeline `Object.entries(jobs).filter(success).slice(-10).map(project).reverse()`. -/
def recentActivities (st : Store) : List Activity :=
  ((sliceLastTen (st.filter fun p => decide (p.2.status = .success))).map
    activityOf).reverse

/-! ### cleanupOldJobs (server.js lines 161-174) -/

/-- One hour in milliseconds (`60 * 60 * 1000`). -/
def msPerHour : Int := 3600000

/-- One reaper sweep.  `parseDate` embeds `new Date(string).getTime()`:
`none` models an Invalid Date (every `<` comparison with `NaN` is false, so
the record is kept); `nowMs` is `Date.now()`.  A record is deleted exactly
when its parsed timestamp is strictly below `nowMs - 3600000`. -/
def cleanupOldJobs (parseDate : String → Option Int) (nowMs : Int)
    (st : Store) : Store :=
  st.filter fun p =>
    match parseDate p.2.timestamp with
    | none => true
    | some t => !decide (t < nowMs - msPerHour)

/-! ### Legacy POST /login and /logout (server.js lines 114-123) -/

/-- Mutation `req.body.action = a` before re-dispatch. -/
def setAction (b : AttendanceBody) (a : String) : AttendanceBody :=
  { b with action := some a }

/-- Re-dispatch through the router on a rewritten url: route the rewritten
request by its url.  Only the /attendance route is reachable from the
legacy handlers. -/
def dispatchPost (url : String) (b : AttendanceBody) (jobId ts : String)
    (st : Store) : Option (AttResult × Store × Option String) :=
  if url = "/attendance" then some (attendance b jobId ts st) else none

/-- The POST /login handler: inject `action = "login"` and re-dispatch to
/attendance. -/
def postLogin (b : AttendanceBody) (jobId ts : String) (st : Store) :
    Option (AttResult × Store × Option String) :=
  dispatchPost "/attendance" (setAction b "login") jobId ts st

/-- The POST /logout handler: inject `action = "logout"` and re-dispatch to
/attendance. -/
def postLogout (b : AttendanceBody) (jobId ts : String) (st : Store) :
    Option (AttResult × Store × Option String) :=
  dispatchPost "/attendance" (setAction b "logout") jobId ts st

/-! ### System runs

The whole server as a transition system.  `pending` holds the ids of
spawned forwarder tasks whose store write has not happened yet; `used`
holds every id ever returned by `uuidv4()` (the step relation refuses a
colliding id, embedding the global uniqueness of v4 uuids that the spec
assumes).  Read-only routes are included as explicit no-op events. -/

structure Sys where
  jobs : Store
  pending : List String
  used : List String
deriving DecidableEq, Repr

def initSys : Sys := { jobs := [], pending := [], used := [] }

inductive Event where
  | submit (b : AttendanceBody) (jobId ts : String)
  | complete (jobId : String) (outcome : FetchOutcome)
  | reap (parseDate : String → Option Int) (nowMs : Int)
  | getStatus (jobId : String)
  | getRecent

def step (s : Sys) : Event → Option Sys
  | .submit b jobId ts =>
    match attendance b jobId ts s.jobs with
    | (.badRequest _, _, _) => some s
    | (.accepted _ _ _, st2, _) =>
      if jobId ∈ s.used then none
      else some { jobs := st2, pending := jobId :: s.pending, used := jobId :: s.used }
  | .complete jobId outcome =>
    if jobId ∈ s.pending then
      some { s with jobs := (forwarderWrite s.jobs jobId outcome).1,
                    pending := s.pending.erase jobId }
    else none
  | .reap parseDate nowMs =>
    some { s with jobs := cleanupOldJobs parseDate nowMs s.jobs }
  | .getStatus _ => some s
  | .getRecent => some s

def run (s : Sys) : List Event → Option Sys
  | [] => some s
  | e :: es => (step s e).bind fun t => run t es

/-- Reachability invariant of the system. -/
structure Inv (s : Sys) : Prop where
  keys_nodup : (storeKeys s.jobs).Nodup
  keys_used : ∀ id j, storeGet s.jobs id = some j → id ∈ s.used
  pending_used : ∀ id, id ∈ s.pending → id ∈ s.used
  pending_nodup : s.pending.Nodup
  terminal_not_pending : ∀ id j, storeGet s.jobs id = some j →
    j.status ≠ .processing → id ∉ s.pending
  shape : ∀ id j, storeGet s.jobs id = some j →
    (j.status = .processing → j.error = none ∧ j.n8nResponse = none) ∧
    (j.status = .failed → ∃ m, j.error = some m) ∧
    (j.status = .success → ∃ v, j.n8nResponse = some v)

theorem inv_init : Inv initSys := by
  constructor <;> simp [initSys, storeKeys, storeGet]

theorem mem_storeKeys {st : Store} {id : String} :
    id ∈ storeKeys st ↔ ∃ j, (id, j) ∈ st := by
  constructor
  · intro h
    rw [storeKeys, List.mem_map] at h
    obtain ⟨⟨a, b⟩, hmem, rfl⟩ := h
    exact ⟨b, hmem⟩
  · rintro ⟨j, hj⟩
    exact List.mem_map.mpr ⟨(id, j), hj, rfl⟩

theorem storeGet_none_iff_not_mem_keys {st : Store} {id : String} :
    storeGet st id = none ↔ id ∉ storeKeys st := by
  rw [storeGet_eq_none_iff]
  constructor
  · intro h hk
    obtain ⟨j, hj⟩ := mem_storeKeys.mp hk
    exact h j hj
  · intro h j hj
    exact h (mem_storeKeys.mpr ⟨j, hj⟩)

theorem cleanup_mem {parseDate : String → Option Int} {nowMs : Int}
    {st : Store} {x : String × Job}
    (h : x ∈ cleanupOldJobs parseDate nowMs st) : x ∈ st :=
  List.mem_of_mem_filter h

theorem storeKeys_cleanup_sublist (parseDate : String → Option Int)
    (nowMs : Int) (st : Store) :
    List.Sublist (storeKeys (cleanupOldJobs parseDate nowMs st)) (storeKeys st) :=
  List.Sublist.map Prod.fst (List.filter_sublist st)

theorem storeGet_cleanup_none {parseDate : String → Option Int} {nowMs : Int}
    {st : Store} {id : String} (h : storeGet st id = none) :
    storeGet (cleanupOldJobs parseDate nowMs st) id = none := by
  rw [storeGet_eq_none_iff] at h ⊢
  intro j hj
  exact h j (cleanup_mem hj)

theorem storeGet_cleanup_some {parseDate : String → Option Int} {nowMs : Int}
    {st : Store} {id : String} {j : Job} (hnd : (storeKeys st).Nodup)
    (h : storeGet (cleanupOldJobs parseDate nowMs st) id = some j) :
    storeGet st id = some j :=
  storeGet_of_mem hnd (cleanup_mem (storeGet_mem h))

theorem forwarderResult_not_processing (j : Job) (o : FetchOutcome) :
    (forwarderResult j o).status ≠ .processing := by
  cases o with
  | response ok code body => cases ok <;> simp [forwarderResult]
  | networkError msg => simp [forwarderResult]

theorem forwarderResult_terminal (j : Job) (o : FetchOutcome) :
    (forwarderResult j o).status = .success ∨ (forwarderResult j o).status = .failed := by
  cases o with
  | response ok code body => cases ok <;> simp [forwarderResult]
  | networkError msg => simp [forwarderResult]

theorem forwarderResult_shape (j : Job) (o : FetchOutcome) :
    ((forwarderResult j o).status = .failed → ∃ m, (forwarderResult j o).error = some m) ∧
    ((forwarderResult j o).status = .success → ∃ v, (forwarderResult j o).n8nResponse = some v) := by
  cases o with
  | response ok code body => cases ok <;> simp [forwarderResult]
  | networkError msg => simp [forwarderResult]

/-- The record inserted for a valid submission (lines 43-48). -/
def freshJob (b : AttendanceBody) (ts : String) : Job :=
  { status := .processing
    action := b.action.getD ""
    name := b.name.getD ""
    timestamp := ts }

theorem attendance_accepted {b : AttendanceBody} {jobId ts : String}
    {st : Store} {jid msg a : String} {st2 : Store} {sp : Option String}
    (h : attendance b jobId ts st = (.accepted jid msg a, st2, sp)) :
    jid = jobId ∧ sp = some jobId ∧ st2 = storeSet st jobId (freshJob b ts) := by
  by_cases h1 : allFieldsTruthy b
  · by_cases h2 : actionAllowed b
    · simp [attendance, h1, h2, freshJob] at h ⊢
      exact ⟨h.1.1.symm, h.2.2.symm, h.2.1.symm⟩
    · simp [attendance, h1, h2] at h
  · simp [attendance, h1] at h

theorem attendance_badRequest {b : AttendanceBody} {jobId ts : String}
    {st : Store} {msg : String} {st2 : Store} {sp : Option String}
    (h : attendance b jobId ts st = (.badRequest msg, st2, sp)) :
    st2 = st ∧ sp = none := by
  by_cases h1 : allFieldsTruthy b
  · by_cases h2 : actionAllowed b
    · simp [attendance, h1, h2] at h
    · simp [attendance, h1, h2] at h
      exact ⟨h.2.1.symm, h.2.2.symm⟩
  · simp [attendance, h1] at h
    exact ⟨h.2.1.symm, h.2.2.symm⟩

theorem inv_step {s t : Sys} {e : Event} (hs : Inv s) (h : step s e = some t) :
    Inv t := by
  cases e with
  | submit b jobId ts =>
    simp only [step] at h
    split at h
    · cases h
      exact hs
    · rename_i jid msg a st2 sp heq
      split at h
      · exact absurd h (by simp)
      · rename_i hfresh
        cases h
        obtain ⟨-, -, hst2⟩ := attendance_accepted heq
        subst hst2
        have hget : storeGet s.jobs jobId = none := by
          cases hg : storeGet s.jobs jobId with
          | none => rfl
          | some j => exact absurd (hs.keys_used jobId j hg) hfresh
        have hnotkey : jobId ∉ storeKeys s.jobs :=
          storeGet_none_iff_not_mem_keys.mp hget
        have hkeys : storeKeys (storeSet s.jobs jobId (freshJob b ts)) =
            storeKeys s.jobs ++ [jobId] := by
          rw [storeSet_of_absent _ _ _ hget]
          simp [storeKeys]
        constructor
        · show (storeKeys (storeSet s.jobs jobId (freshJob b ts))).Nodup
          rw [hkeys]
          simp [List.nodup_append, hs.keys_nodup, hnotkey]
        · intro id j hg2
          by_cases hid : id = jobId
          · subst hid
            exact List.mem_cons_self _ _
          · rw [storeGet_storeSet_ne _ _ _ _ (fun hx => hid hx.symm)] at hg2
            exact List.mem_cons_of_mem _ (hs.keys_used id j hg2)
        · intro id hid
          rcases List.mem_cons.mp hid with rfl | hmem
          · exact List.mem_cons_self _ _
          · exact List.mem_cons_of_mem _ (hs.pending_used id hmem)
        · refine List.nodup_cons.mpr ⟨?_, hs.pending_nodup⟩
          intro hmem
          exact hfresh (hs.pending_used jobId hmem)
        · intro id j hg2 hterm
          by_cases hid : id = jobId
          · subst hid
            rw [storeGet_storeSet_self] at hg2
            injection hg2 with hj
            subst hj
            exact absurd rfl hterm
          · rw [storeGet_storeSet_ne _ _ _ _ (fun hx => hid hx.symm)] at hg2
            have hnp := hs.terminal_not_pending id j hg2 hterm
            intro hmem
            rcases List.mem_cons.mp hmem with rfl | hmem2
            · exact hid rfl
            · exact hnp hmem2
        · intro id j hg2
          by_cases hid : id = jobId
          · subst hid
            rw [storeGet_storeSet_self] at hg2
            injection hg2 with hj
            subst hj
            refine ⟨?_, ?_, ?_⟩ <;> simp [freshJob]
          · rw [storeGet_storeSet_ne _ _ _ _ (fun hx => hid hx.symm)] at hg2
            exact hs.shape id j hg2
  | complete jobId outcome =>
    simp only [step] at h
    split at h
    · rename_i hp
      cases h
      cases hget : storeGet s.jobs jobId with
      | none =>
        have hfw : (forwarderWrite s.jobs jobId outcome).1 = s.jobs := by
          simp [forwarderWrite, hget]
        constructor
        · show (storeKeys (forwarderWrite s.jobs jobId outcome).1).Nodup
          rw [hfw]
          exact hs.keys_nodup
        · intro id j hg2
          rw [show (forwarderWrite s.jobs jobId outcome).1 = s.jobs from hfw] at hg2
          exact hs.keys_used id j hg2
        · intro id hid
          exact hs.pending_used id (List.mem_of_mem_erase hid)
        · exact hs.pending_nodup.erase _
        · intro id j hg2 hterm
          rw [show (forwarderWrite s.jobs jobId outcome).1 = s.jobs from hfw] at hg2
          intro hmem
          exact hs.terminal_not_pending id j hg2 hterm (List.mem_of_mem_erase hmem)
        · intro id j hg2
          rw [show (forwarderWrite s.jobs jobId outcome).1 = s.jobs from hfw] at hg2
          exact hs.shape id j hg2
      | some j0 =>
        have hfw : (forwarderWrite s.jobs jobId outcome).1 =
            storeSet s.jobs jobId (forwarderResult j0 outcome) := by
          simp [forwarderWrite, hget]
        have hkeys : storeKeys (storeSet s.jobs jobId (forwarderResult j0 outcome)) =
            storeKeys s.jobs :=
          storeKeys_storeSet_of_present _ _ _ (by rw [hget]; simp)
        constructor
        · show (storeKeys (forwarderWrite s.jobs jobId outcome).1).Nodup
          rw [hfw, hkeys]
          exact hs.keys_nodup
        · intro id j hg2
          rw [show (forwarderWrite s.jobs jobId outcome).1 = _ from hfw] at hg2
          by_cases hid : id = jobId
          · subst hid
            exact hs.pending_used id hp
          · rw [storeGet_storeSet_ne _ _ _ _ (fun hx => hid hx.symm)] at hg2
            exact hs.keys_used id j hg2
        · intro id hid
          exact hs.pending_used id (List.mem_of_mem_erase hid)
        · exact hs.pending_nodup.erase _
        · intro id j hg2 hterm
          rw [show (forwarderWrite s.jobs jobId outcome).1 = _ from hfw] at hg2
          by_cases hid : id = jobId
          · subst hid
            intro hmem
            exact ((hs.pending_nodup.mem_erase_iff).mp hmem).1 rfl
          · rw [storeGet_storeSet_ne _ _ _ _ (fun hx => hid hx.symm)] at hg2
            intro hmem
            exact hs.terminal_not_pending id j hg2 hterm (List.mem_of_mem_erase hmem)
        · intro id j hg2
          rw [show (forwarderWrite s.jobs jobId outcome).1 = _ from hfw] at hg2
          by_cases hid : id = jobId
          · subst hid
            rw [storeGet_storeSet_self] at hg2
            injection hg2 with hj
            subst hj
            refine ⟨?_, ?_, ?_⟩
            · intro hproc
              exact absurd hproc (forwarderResult_not_processing j0 outcome)
            · exact (forwarderResult_shape j0 outcome).1
            · exact (forwarderResult_shape j0 outcome).2
          · rw [storeGet_storeSet_ne _ _ _ _ (fun hx => hid hx.symm)] at hg2
            exact hs.shape id j hg2
    · exact absurd h (by simp)
  | reap parseDate nowMs =>
    cases h
    constructor
    · show (storeKeys (cleanupOldJobs parseDate nowMs s.jobs)).Nodup
      exact List.Nodup.sublist (storeKeys_cleanup_sublist _ _ _) hs.keys_nodup
    · intro id j hg2
      exact hs.keys_used id j (storeGet_cleanup_some hs.keys_nodup hg2)
    · exact hs.pending_used
    · exact hs.pending_nodup
    · intro id j hg2 hterm
      exact hs.terminal_not_pending id j (storeGet_cleanup_some hs.keys_nodup hg2) hterm
    · intro id j hg2
      exact hs.shape id j (storeGet_cleanup_some hs.keys_nodup hg2)
  | getStatus jobId =>
    cases h
    exact hs
  | getRecent =>
    cases h
    exact hs

theorem inv_run {t : Sys} {evs : List Event} :
    ∀ {s : Sys}, Inv s → run s evs = some t → Inv t := by
  induction evs with
  | nil =>
    intro s hs h
    simp only [run] at h
    have hst := Option.some.inj h
    subst hst
    exact hs
  | cons e es ih =>
    intro s hs h
    simp only [run] at h
    cases hstep : step s e with
    | none => rw [hstep] at h; exact Option.noConfusion h
    | some u =>
      rw [hstep] at h
      simp only [Option.some_bind] at h
      exact ih (inv_step hs hstep) h

theorem step_used_mono {s t : Sys} {e : Event} {id : String}
    (h : step s e = some t) (hu : id ∈ s.used) : id ∈ t.used := by
  cases e with
  | submit b jobId ts =>
    simp only [step] at h
    split at h
    · cases h; exact hu
    · split at h
      · exact absurd h (by simp)
      · cases h
        exact List.mem_cons_of_mem _ hu
  | complete jobId outcome =>
    simp only [step] at h
    split at h
    · cases h; exact hu
    · exact absurd h (by simp)
  | reap parseDate nowMs => cases h; exact hu
  | getStatus jobId => cases h; exact hu
  | getRecent => cases h; exact hu

theorem step_dead {s t : Sys} {e : Event} {id : String}
    (h : step s e = some t) (hu : id ∈ s.used)
    (hd : storeGet s.jobs id = none) : storeGet t.jobs id = none := by
  cases e with
  | submit b jobId ts =>
    simp only [step] at h
    split at h
    · cases h; exact hd
    · rename_i jid msg a st2 sp heq
      split at h
      · exact absurd h (by simp)
      · rename_i hfresh
        cases h
        obtain ⟨-, -, hst2⟩ := attendance_accepted heq
        subst hst2
        have hne : jobId ≠ id := fun hx => hfresh (hx ▸ hu)
        show storeGet (storeSet s.jobs jobId (freshJob b ts)) id = none
        rw [storeGet_storeSet_ne _ _ _ _ hne]
        exact hd
  | complete jobId outcome =>
    simp only [step] at h
    split at h
    · cases h
      cases hget : storeGet s.jobs jobId with
      | none =>
        show storeGet (forwarderWrite s.jobs jobId outcome).1 id = none
        simp [forwarderWrite, hget, hd]
      | some j0 =>
        have hne : jobId ≠ id := by
          intro hx
          rw [hx, hd] at hget
          exact Option.noConfusion hget
        show storeGet (forwarderWrite s.jobs jobId outcome).1 id = none
        simp only [forwarderWrite, hget]
        rw [storeGet_storeSet_ne _ _ _ _ hne]
        exact hd
    · exact absurd h (by simp)
  | reap parseDate nowMs =>
    cases h
    exact storeGet_cleanup_none hd
  | getStatus jobId => cases h; exact hd
  | getRecent => cases h; exact hd

theorem run_dead {t : Sys} {evs : List Event} :
    ∀ {s : Sys} {id : String}, Inv s → run s evs = some t → id ∈ s.used →
    storeGet s.jobs id = none → storeGet t.jobs id = none := by
  induction evs with
  | nil =>
    intro s id hs h hu hd
    simp only [run] at h
    have hst := Option.some.inj h
    subst hst
    exact hd
  | cons e es ih =>
    intro s id hs h hu hd
    simp only [run] at h
    cases hstep : step s e with
    | none => rw [hstep] at h; exact Option.noConfusion h
    | some u =>
      rw [hstep] at h
      simp only [Option.some_bind] at h
      exact ih (inv_step hs hstep) h (step_used_mono hstep hu) (step_dead hstep hu hd)

/-- The allowed evolution of a record status between two observations:
unchanged, or the single transition processing → success / processing →
failed. -/
def statusMono (a b : Status) : Prop :=
  b = a ∨ (a = .processing ∧ (b = .success ∨ b = .failed))

theorem statusMono_trans : ∀ a b c : Status,
    statusMono a b → statusMono b c → statusMono a c := by
  intro a b c h1 h2
  rcases h1 with rfl | ⟨rfl, hb⟩
  · exact h2
  · rcases hb with rfl | rfl
    · rcases h2 with rfl | ⟨hcontra, -⟩
      · exact Or.inr ⟨rfl, Or.inl rfl⟩
      · exact Status.noConfusion hcontra
    · rcases h2 with rfl | ⟨hcontra, -⟩
      · exact Or.inr ⟨rfl, Or.inr rfl⟩
      · exact Status.noConfusion hcontra

theorem step_status {s t : Sys} {e : Event} {id : String} {j j2 : Job}
    (hs : Inv s) (h : step s e = some t)
    (h1 : storeGet s.jobs id = some j) (h2 : storeGet t.jobs id = some j2) :
    statusMono j.status j2.status := by
  cases e with
  | submit b jobId ts =>
    simp only [step] at h
    split at h
    · cases h
      rw [h1] at h2
      cases Option.some.inj h2
      exact Or.inl rfl
    · rename_i jid msg a st2 sp heq
      split at h
      · exact absurd h (by simp)
      · rename_i hfresh
        cases h
        obtain ⟨-, -, hst2⟩ := attendance_accepted heq
        subst hst2
        have hne : jobId ≠ id := fun hx => hfresh (hx ▸ hs.keys_used id j h1)
        rw [show storeGet (storeSet s.jobs jobId (freshJob b ts)) id =
            storeGet s.jobs id from storeGet_storeSet_ne _ _ _ _ hne, h1] at h2
        cases Option.some.inj h2
        exact Or.inl rfl
  | complete jobId outcome =>
    simp only [step] at h
    split at h
    · rename_i hp
      cases h
      cases hget : storeGet s.jobs jobId with
      | none =>
        rw [show storeGet (forwarderWrite s.jobs jobId outcome).1 id =
            storeGet s.jobs id from by simp [forwarderWrite, hget], h1] at h2
        cases Option.some.inj h2
        exact Or.inl rfl
      | some j0 =>
        by_cases hid : id = jobId
        · subst hid
          rw [hget] at h1
          cases Option.some.inj h1
          rw [show (forwarderWrite s.jobs id outcome).1 =
              storeSet s.jobs id (forwarderResult j outcome) from by
            simp [forwarderWrite, hget], storeGet_storeSet_self] at h2
          cases Option.some.inj h2
          have hproc : j.status = .processing := by
            by_contra hterm
            exact hs.terminal_not_pending id j hget hterm hp
          exact Or.inr ⟨hproc, forwarderResult_terminal j outcome⟩
        · rw [show (forwarderWrite s.jobs jobId outcome).1 =
              storeSet s.jobs jobId (forwarderResult j0 outcome) from by
            simp [forwarderWrite, hget],
            storeGet_storeSet_ne _ _ _ _ (fun hx => hid hx.symm), h1] at h2
          cases Option.some.inj h2
          exact Or.inl rfl
    · exact absurd h (by simp)
  | reap parseDate nowMs =>
    cases h
    have := storeGet_cleanup_some hs.keys_nodup h2
    rw [h1] at this
    cases Option.some.inj this
    exact Or.inl rfl
  | getStatus jobId =>
    cases h
    rw [h1] at h2
    cases Option.some.inj h2
    exact Or.inl rfl
  | getRecent =>
    cases h
    rw [h1] at h2
    cases Option.some.inj h2
    exact Or.inl rfl

theorem run_status {t : Sys} {evs : List Event} :
    ∀ {s : Sys} {id : String} {j j2 : Job}, Inv s → run s evs = some t →
    storeGet s.jobs id = some j → storeGet t.jobs id = some j2 →
    statusMono j.status j2.status := by
  induction evs with
  | nil =>
    intro s id j j2 hs h h1 h2
    simp only [run] at h
    have hst := Option.some.inj h
    subst hst
    rw [h1] at h2
    cases Option.some.inj h2
    exact Or.inl rfl
  | cons e es ih =>
    intro s id j j2 hs h h1 h2
    simp only [run] at h
    cases hstep : step s e with
    | none => rw [hstep] at h; exact Option.noConfusion h
    | some u =>
      rw [hstep] at h
      simp only [Option.some_bind] at h
      cases hgu : storeGet u.jobs id with
      | none =>
        have hu : id ∈ u.used := step_used_mono hstep (hs.keys_used id j h1)
        have := run_dead (inv_step hs hstep) h hu hgu
        rw [this] at h2
        exact Option.noConfusion h2
      | some j1 =>
        exact statusMono_trans _ _ _ (step_status hs hstep h1 hgu)
          (ih (inv_step hs hstep) h hgu h2)

/-! ### Claims -/

/-- Claim C1.  The claim states that no exception ever escapes the detached
forwarder task, including when the job record has already been removed from
the store when the forwarder writes its result.  The code violates the
removed-record part: with the record absent, `jobs[jobId].status = ...`
throws a TypeError, then in the catch block `jobs[jobId].status = "failed"`
throws again, and that second throw escapes the async IIFE.  This theorem
evaluates the forwarder write at such a failing input: on an empty store the
escape flag is `true` for both the error path and the success path, while
with the record still present every failure is contained (`false`). -/
theorem c1_reaped_record_escape :
    (forwarderWrite [] "j1" (.networkError "fetch failed")).2 = true ∧
    (forwarderWrite [] "j1" (.response true 200 none)).2 = true ∧
    (forwarderWrite
        [("j1", { status := .processing, action := "login", name := "Alice",
                  timestamp := "2024-01-01T09:00:00.000Z" })]
        "j1" (.networkError "fetch failed")).2 = false := by
  refine ⟨rfl, rfl, ?_⟩
  decide

/-- Claim C2.  Along any run of the system, the status of a stored job
record only ever evolves by the transitions processing → success or
processing → failed, each at most once, and never backward: whenever the
same job id is observed with records `j` then later `j2`, either the status
is unchanged or it went from processing to a terminal status. -/
theorem c2_status_transitions (evs1 evs2 : List Event) (s1 s2 : Sys)
    (id : String) (j j2 : Job)
    (h1 : run initSys evs1 = some s1) (h2 : run s1 evs2 = some s2)
    (hg1 : storeGet s1.jobs id = some j) (hg2 : storeGet s2.jobs id = some j2) :
    statusMono j.status j2.status :=
  run_status (inv_run inv_init h1) h2 hg1 hg2

/-- Claim C2 witness: a concrete run in which a submitted job is observed
as processing and, after the forwarder completes, as success. -/
theorem c2_status_transitions_witness :
    statusMono Status.processing Status.success :=
  c2_status_transitions
    [Event.submit
      { name := some "Alice", department := some "Eng",
        date := some "2024-01-01", time := some "09:00", action := some "login" }
      "j1" "T0"]
    [Event.complete "j1" (FetchOutcome.response true 200 none)]
    { jobs :=
        [("j1",
          { status := .processing, action := "login", name := "Alice",
            timestamp := "T0" })],
      pending := ["j1"], used := ["j1"] }
    { jobs :=
        [("j1",
          { status := .success, action := "login", name := "Alice",
            timestamp := "T0", n8nResponse := some defaultSuccessBody })],
      pending := [], used := ["j1"] }
    "j1"
    { status := .processing, action := "login", name := "Alice", timestamp := "T0" }
    { status := .success, action := "login", name := "Alice", timestamp := "T0",
      n8nResponse := some defaultSuccessBody }
    (by decide) (by decide) (by decide) (by decide)

/-- Claim C3.  The claim states the outbound webhook call is bounded by a
30-second timeout.  The only timeout mechanism in the code is the
nonstandard `timeout: 30000` member of the object passed to the global
WHATWG `fetch`, which ignores unknown RequestInit members; no `signal`
(AbortController) is passed.  This theorem evaluates the init object the
code builds: it carries the ignored `timeout` key and no `signal` key, so
the enforcement the claim asserts is absent. -/
theorem c3_fetch_timeout_option (body : String) :
    (forwarderFetchInit body).lookup "timeout" = some (JsonV.num 30000) ∧
    (forwarderFetchInit body).lookup "signal" = none ∧
    (forwarderFetchInit body).map Prod.fst = ["method", "headers", "body", "timeout"] :=
  ⟨rfl, rfl, rfl⟩

/-- Claim C4.  Any POST /attendance request with a missing field, or with
an action outside login/logout, is rejected with a 400-style error, the
store is unchanged and no forwarder task is spawned; when all five fields
are present (truthy) and the action is invalid, the error message is
exactly the bad-action message. -/
theorem c4_validation_rejects (b : AttendanceBody) (jobId ts : String)
    (st : Store)
    (hbad : b.name = none ∨ b.department = none ∨ b.date = none ∨
      b.time = none ∨ b.action = none ∨ actionAllowed b = false) :
    (∃ msg, attendance b jobId ts st = (.badRequest msg, st, none)) ∧
    (allFieldsTruthy b = true →
      attendance b jobId ts st = (.badRequest badActionMsg, st, none)) := by
  by_cases h1 : allFieldsTruthy b = true
  · have h2 : actionAllowed b = false := by
      simp only [allFieldsTruthy, Bool.and_eq_true] at h1
      rcases hbad with hnone | hnone | hnone | hnone | hnone | hfalse
      · rw [hnone] at h1; exact absurd h1.1.1.1.1 (by simp [truthyStr])
      · rw [hnone] at h1; exact absurd h1.1.1.1.2 (by simp [truthyStr])
      · rw [hnone] at h1; exact absurd h1.1.1.2 (by simp [truthyStr])
      · rw [hnone] at h1; exact absurd h1.1.2 (by simp [truthyStr])
      · rw [hnone] at h1; exact absurd h1.2 (by simp [truthyStr])
      · exact hfalse
    refine ⟨⟨badActionMsg, ?_⟩, fun _ => ?_⟩ <;> simp [attendance, h1, h2]
  · have h1f : allFieldsTruthy b = false := by
      cases hx : allFieldsTruthy b with
      | true => exact absurd hx h1
      | false => rfl
    exact ⟨⟨missingFieldsMsg, by simp [attendance, h1f]⟩,
      fun hcontra => absurd hcontra h1⟩

/-- Claim C4 witness: the documented example, a submission with
`action = "maybe"`, yields exactly the bad-action error, leaves the store
empty and spawns nothing. -/
theorem c4_validation_rejects_witness :
    attendance
      { name := some "Alice", department := some "Eng",
        date := some "2024-01-01", time := some "09:00", action := some "maybe" }
      "j1" "T0" [] = (.badRequest badActionMsg, [], none) :=
  (c4_validation_rejects _ "j1" "T0" []
    (Or.inr (Or.inr (Or.inr (Or.inr (Or.inr (by decide))))))).2 (by decide)

theorem sliceLastTen_map_reverse {α β : Type} (l : List α) (g : α → β) :
    ((sliceLastTen l).map g).reverse = ((l.map g).reverse).take 10 := by
  have h : sliceLastTen l = l.rtake 10 := rfl
  rw [h, List.rtake_eq_reverse_take_reverse, List.map_reverse, List.reverse_reverse,
    List.map_take, List.map_reverse]

/-- Claim C5.  GET /recent-activities returns exactly the projection of the
success-status entries of the store, in reverse insertion (creation) order
— most recent first — capped at the last ten, and in particular never more
than ten entries. -/
theorem c5_recent_activities (st : Store) :
    recentActivities st =
      ((st.filter fun p => decide (p.2.status = .success)).map activityOf).reverse.take 10 ∧
    (recentActivities st).length ≤ 10 := by
  have key : recentActivities st =
      ((st.filter fun p => decide (p.2.status = .success)).map activityOf).reverse.take 10 :=
    sliceLastTen_map_reverse _ _
  refine ⟨key, ?_⟩
  rw [key]
  exact List.length_take_le _ _

/-- Claim C6.  One reaper sweep evicts exactly the records whose creation
timestamp parses to a time strictly before now − 1 hour: such a record is
absent afterwards, a record at or after the cutoff survives unchanged, and
a record whose timestamp fails to parse is kept. -/
theorem c6_cleanup_eviction (parseDate : String → Option Int) (nowMs : Int)
    (st : Store) (id : String) (j : Job)
    (hnd : (storeKeys st).Nodup) (hmem : (id, j) ∈ st) :
    (∀ t, parseDate j.timestamp = some t → t < nowMs - msPerHour →
      storeGet (cleanupOldJobs parseDate nowMs st) id = none) ∧
    (∀ t, parseDate j.timestamp = some t → ¬ t < nowMs - msPerHour →
      (id, j) ∈ cleanupOldJobs parseDate nowMs st) ∧
    (parseDate j.timestamp = none → (id, j) ∈ cleanupOldJobs parseDate nowMs st) := by
  refine ⟨?_, ?_, ?_⟩
  · intro t hpt hlt
    rw [storeGet_eq_none_iff]
    intro j2 hmem2
    have hj2 : j2 = j := by
      have e1 := storeGet_of_mem hnd (cleanup_mem hmem2)
      have e2 := storeGet_of_mem hnd hmem
      rw [e1] at e2
      exact Option.some.inj e2
    subst hj2
    have hpred := List.of_mem_filter hmem2
    simp only [hpt] at hpred
    simp [hlt] at hpred
  · intro t hpt hge
    refine List.mem_filter.mpr ⟨hmem, ?_⟩
    simp only [hpt]
    simp [hge]
  · intro hnone
    refine List.mem_filter.mpr ⟨hmem, ?_⟩
    simp only [hnone]

/-- Claim C6 witness: on a store holding an over-one-hour-old success job,
a fresh processing job and a job with an unparsable timestamp, the sweep
removes the old record and keeps the unparsable one. -/
theorem c6_cleanup_eviction_witness :
    storeGet
      (cleanupOldJobs
        (fun s => if s = "T-OLD" then some 0 else
          if s = "T-NEW" then some 7200000 else none)
        7200000
        [("a", { status := .success, action := "login", name := "A", timestamp := "T-OLD" }),
         ("b", { status := .processing, action := "logout", name := "B", timestamp := "T-NEW" }),
         ("c", { status := .failed, action := "login", name := "C", timestamp := "garbage" })])
      "a" = none ∧
    ("c", { status := .failed, action := "login", name := "C", timestamp := "garbage" }) ∈
      cleanupOldJobs
        (fun s => if s = "T-OLD" then some 0 else
          if s = "T-NEW" then some 7200000 else none)
        7200000
        [("a", { status := .success, action := "login", name := "A", timestamp := "T-OLD" }),
         ("b", { status := .processing, action := "logout", name := "B", timestamp := "T-NEW" }),
         ("c", { status := .failed, action := "login", name := "C", timestamp := "garbage" })] :=
  ⟨(c6_cleanup_eviction _ 7200000 _ "a"
      { status := .success, action := "login", name := "A", timestamp := "T-OLD" }
      (by decide) (by decide)).1 0 (by decide) (by decide),
   (c6_cleanup_eviction _ 7200000 _ "c"
      { status := .failed, action := "login", name := "C", timestamp := "garbage" }
      (by decide) (by decide)).2.2 (by decide)⟩

/-- Claim C7.  In every reachable state, a stored record lacking both the
error field and the downstream-response field has status processing; a
failed record always carries an error message and a success record always
carries a downstream response. -/
theorem c7_record_shape (evs : List Event) (s : Sys) (id : String) (j : Job)
    (hrun : run initSys evs = some s) (hget : storeGet s.jobs id = some j) :
    ((j.error = none ∧ j.n8nResponse = none) → j.status = .processing) ∧
    (j.status = .failed → ∃ m, j.error = some m) ∧
    (j.status = .success → ∃ v, j.n8nResponse = some v) := by
  have hshape := (inv_run inv_init hrun).shape id j hget
  refine ⟨?_, hshape.2.1, hshape.2.2⟩
  rintro ⟨he, hn⟩
  cases hstatus : j.status with
  | processing => rfl
  | failed =>
    obtain ⟨m, hm⟩ := hshape.2.1 hstatus
    rw [hm] at he
    exact Option.noConfusion he
  | success =>
    obtain ⟨v, hv⟩ := hshape.2.2 hstatus
    rw [hv] at hn
    exact Option.noConfusion hn

/-- Claim C7 witness: a freshly submitted job, which has neither field, is
indeed in processing state. -/
theorem c7_record_shape_witness :
    ({ status := .processing, action := "login", name := "Alice",
       timestamp := "T0" } : Job).status = Status.processing :=
  (c7_record_shape
    [Event.submit
      { name := some "Alice", department := some "Eng",
        date := some "2024-01-01", time := some "09:00", action := some "login" }
      "j1" "T0"]
    { jobs :=
        [("j1",
          { status := .processing, action := "login", name := "Alice",
            timestamp := "T0" })],
      pending := ["j1"], used := ["j1"] }
    "j1"
    { status := .processing, action := "login", name := "Alice", timestamp := "T0" }
    (by decide) (by decide)).1 ⟨rfl, rfl⟩

/-- Claim C8 counterexample.  The claim asserts the payload timestamp is
distinct from the creation timestamp of the job record.  Both timestamps are
separate `new Date().toISOString()` readings with millisecond resolution;
in a run where the two reads fall in the same millisecond they are equal.
Here the dispatcher clock reading and the forwarder clock reading are
the same ISO string, and the created record and the built payload carry
identical timestamps. -/
theorem c8_same_millisecond_counterexample :
    storeGet
      ((attendance
        { name := some "Alice", department := some "Eng",
          date := some "2024-01-01", time := some "09:00", action := some "login" }
        "j1" "2024-01-01T09:00:00.000Z" []).2.1) "j1" =
      some
        { status := .processing, action := "login", name := "Alice",
          timestamp := "2024-01-01T09:00:00.000Z" } ∧
    (buildWebhookData "Alice" "Eng" "2024-01-01" "09:00" "login" "j1"
      "2024-01-01T09:00:00.000Z").timestamp = "2024-01-01T09:00:00.000Z" := by
  constructor
  · decide
  · rfl

/-- Claim C8 (amended).  For a valid submission, the payload built by the
forwarder consists of the whitespace-trimmed name, the department, date,
time and action exactly as submitted, the generated job id, and the second
clock reading `ts2` taken inside the forwarder — a fresh reading, not a
copy of the creation reading `ts1` of the record, though the two strings may
coincide when both reads happen in the same millisecond. -/
theorem c8_webhook_payload (nm dp dt tm ac jobId ts1 ts2 : String) (st : Store)
    (h1 : allFieldsTruthy
      { name := some nm, department := some dp, date := some dt,
        time := some tm, action := some ac } = true)
    (h2 : actionAllowed
      { name := some nm, department := some dp, date := some dt,
        time := some tm, action := some ac } = true) :
    buildWebhookData nm dp dt tm ac jobId ts2 =
      { name := nm.trim, department := dp, date := dt, time := tm,
        action := ac, jobId := jobId, timestamp := ts2 } ∧
    storeGet
      ((attendance
        { name := some nm, department := some dp, date := some dt,
          time := some tm, action := some ac }
        jobId ts1 st).2.1) jobId =
      some
        { status := .processing, action := ac, name := nm, timestamp := ts1 } := by
  refine ⟨rfl, ?_⟩
  simp only [attendance, h1, h2, Bool.not_true, Bool.false_eq_true, if_false]
  exact storeGet_storeSet_self st jobId _

/-- Claim C8 witness: a concrete valid submission whose name carries
surrounding whitespace; the payload holds the trimmed name and the second
clock reading, the record the first. -/
theorem c8_webhook_payload_witness :
    buildWebhookData " Alice " "Eng" "2024-01-01" "09:00" "login" "j1"
      "2024-01-01T09:00:00.123Z" =
      { name := " Alice ".trim, department := "Eng", date := "2024-01-01",
        time := "09:00", action := "login", jobId := "j1",
        timestamp := "2024-01-01T09:00:00.123Z" } ∧
    storeGet
      ((attendance
        { name := some " Alice ", department := some "Eng",
          date := some "2024-01-01", time := some "09:00", action := some "login" }
        "j1" "2024-01-01T09:00:00.100Z" []).2.1) "j1" =
      some
        { status := .processing, action := "login", name := " Alice ",
          timestamp := "2024-01-01T09:00:00.100Z" } := by
  exact c8_webhook_payload " Alice " "Eng" "2024-01-01" "09:00" "login" "j1"
    "2024-01-01T09:00:00.100Z" "2024-01-01T09:00:00.123Z" []
    (by decide) (by decide)

/-- Claim C9.  The legacy endpoints behave exactly like POST /attendance on
the same body with the implied action injected: POST /login re-dispatches
to the /attendance route with `action = "login"` and POST /logout with
`action = "logout"`, producing the same response, the same store and the
same spawned task. -/
theorem c9_legacy_alias (b : AttendanceBody) (jobId ts : String) (st : Store) :
    postLogin b jobId ts st =
      some (attendance { b with action := some "login" } jobId ts st) ∧
    postLogout b jobId ts st =
      some (attendance { b with action := some "logout" } jobId ts st) :=
  ⟨rfl, rfl⟩

/-- Claim C10.  For a job id present in the store, GET /status/:jobId
returns a snapshot whose body always carries the six keys status, action,
name, timestamp, error and n8nResponse in this order, with `error` and
`n8nResponse` rendered as JSON null whenever the record lacks them. -/
theorem c10_status_snapshot (st : Store) (id : String) (job : Job)
    (hget : storeGet st id = some job) :
    statusHandler st id = .ok (statusBody job) ∧
    (statusBody job).map Prod.fst =
      ["status", "action", "name", "timestamp", "error", "n8nResponse"] ∧
    (job.error = none → (statusBody job).lookup "error" = some JsonV.null) ∧
    (job.n8nResponse = none →
      (statusBody job).lookup "n8nResponse" = some JsonV.null) := by
  refine ⟨?_, rfl, ?_, ?_⟩
  · simp [statusHandler, hget]
  · intro he
    simp [statusBody, jsOrNullStr, he, List.lookup]
  · intro hn
    simp [statusBody, jsOrNullJson, hn, List.lookup]

/-- Claim C10 witness: a still-processing job yields a snapshot with
explicit null error and null downstream response. -/
theorem c10_status_snapshot_witness :
    statusHandler
      [("j1", { status := .processing, action := "login", name := "Alice",
                timestamp := "T0" })] "j1" =
      .ok (statusBody
        { status := .processing, action := "login", name := "Alice",
          timestamp := "T0" }) ∧
    (statusBody
      { status := .processing, action := "login", name := "Alice",
        timestamp := "T0" }).lookup "error" = some JsonV.null :=
  ⟨(c10_status_snapshot _ "j1" _ (by decide)).1,
   (c10_status_snapshot
      [("j1", { status := .processing, action := "login", name := "Alice",
                timestamp := "T0" })] "j1" _ (by decide)).2.2.1 rfl⟩

end Emilio
